import Mathlib

/-!
Verification development for the task-scanning core of the solo_scale
repository (src/primus-os/src/core/tasks.py, class TaskScanner).

The Python code is shallowly embedded over List Char / String:

* the four regular expressions of TaskScanner._extract_tasks_from_text are
  embedded as explicit backtracking matchers with Python re semantics
  (case-insensitive literals, greedy quantifiers with backtracking,
  left-to-right non-overlapping findall);
* external collaborators (filesystem reads, HTTP fetch, BeautifulSoup
  get_text) are passed in as explicit oracle data, so the control flow of
  scan / _scan_filesystem / _analyze_file / _scan_webpage is embedded
  exactly while the outside world stays a parameter;
* whitespace classes model the ASCII whitespace characters that Python
  treats as whitespace (the inputs of interest are ASCII).
-/

namespace TaskScanner

/-- ASCII whitespace, the characters matched by the regex class backslash-s
and stripped by Python str.strip on ASCII input. -/
def isPySpace (c : Char) : Bool :=
  c == ' ' || c == '\t' || c == '\n' || c == '\r' || c == '\x0b' || c == '\x0c'

/-- Characters admitted by the capture class of every rule: anything except
a period and a line feed. -/
def notDotNl (c : Char) : Bool :=
  !(c == '.' || c == '\n')

/-- The separator class of the rules: a colon or whitespace. -/
def isSepCh (c : Char) : Bool :=
  c == ':' || isPySpace c

/-- Case-insensitive match of one pattern character l (always a lowercase
ASCII letter in the patterns below) against an input character, modelling
the re.IGNORECASE flag on ASCII. -/
def ciChar (l c : Char) : Bool :=
  c == l || (65 ≤ c.toNat && c.toNat ≤ 90 && c.toNat + 32 == l.toNat)

/-- Match a literal pattern word case-insensitively, returning the rest of
the input on success. -/
def matchLit : List Char → List Char → Option (List Char)
  | [], cs => some cs
  | _ :: _, [] => none
  | l :: ls, c :: cs => if ciChar l c then matchLit ls cs else none

/-- One-or-more whitespace characters, greedy.  In every rule the
quantifier is followed by a literal letter, so maximal munch is exact. -/
def matchWs1 : List Char → Option (List Char)
  | [] => none
  | c :: cs => if isPySpace c then some (cs.dropWhile isPySpace) else none

/-- Ordered alternation of literal words.  The alternatives used below are
pairwise non-prefix of one another, so at most one can match at a given
position and first-match semantics coincides with the backtracking
semantics of the regex engine. -/
def matchAlt : List (List Char) → List Char → Option (List Char)
  | [], _ => none
  | l :: ls, cs =>
    match matchLit l cs with
    | some rest => some rest
    | none => matchAlt ls cs

/-- The greedy capture tail of every rule, ([^.\n]+): one or more
characters other than period and line feed. -/
def captureFrom (cs : List Char) : Option (List Char × List Char) :=
  let cap := cs.takeWhile notDotNl
  if cap.isEmpty then none else some (cap, cs.drop cap.length)

/-- The common tail [:\s]*([^.\n]+) of every rule: a greedy run of
separator characters, backtracking character by character when the capture
that follows would otherwise be empty. -/
def sepCapture : List Char → Option (List Char × List Char)
  | [] => none
  | c :: cs =>
    if isSepCh c then
      match sepCapture cs with
      | some r => some r
      | none => captureFrom (c :: cs)
    else captureFrom (c :: cs)

/-- Greedy optional literal (?:ly)? with backtracking into the
continuation k, as the regex engine performs it. -/
def matchOptCI (lit : List Char) (k : List Char → Option (List Char × List Char))
    (cs : List Char) : Option (List Char × List Char) :=
  match matchLit lit cs with
  | some rest =>
    match k rest with
    | some r => some r
    | none => k cs
  | none => k cs

/-- Tail of rule 1 after the word manual:
\s+(?:process|task|step|procedure)[:\s]*([^.\n]+). -/
def tailP1 (cs : List Char) : Option (List Char × List Char) :=
  (matchWs1 cs).bind fun cs2 =>
    (matchAlt ["process".data, "task".data, "step".data, "procedure".data] cs2).bind
      sepCapture

/-- Rule 1: (?i)manual(?:ly)?\s+(?:process|task|step|procedure)[:\s]*([^.\n]+). -/
def matchP1 (cs : List Char) : Option (List Char × List Char) :=
  (matchLit "manual".data cs).bind (matchOptCI "ly".data tailP1)

/-- Rule 2: (?i)currently\s+(?:done|performed)\s+manual(?:ly)?[:\s]*([^.\n]+). -/
def matchP2 (cs : List Char) : Option (List Char × List Char) :=
  (matchLit "currently".data cs).bind fun cs1 =>
    (matchWs1 cs1).bind fun cs2 =>
      (matchAlt ["done".data, "performed".data] cs2).bind fun cs3 =>
        (matchWs1 cs3).bind fun cs4 =>
          (matchLit "manual".data cs4).bind (matchOptCI "ly".data sepCapture)

/-- Rule 3: (?i)human\s+(?:intervention|input|action)[:\s]*([^.\n]+). -/
def matchP3 (cs : List Char) : Option (List Char × List Char) :=
  (matchLit "human".data cs).bind fun cs1 =>
    (matchWs1 cs1).bind fun cs2 =>
      (matchAlt ["intervention".data, "input".data, "action".data] cs2).bind
        sepCapture

/-- Rule 4: (?i)repetitive\s+task[:\s]*([^.\n]+). -/
def matchP4 (cs : List Char) : Option (List Char × List Char) :=
  (matchLit "repetitive".data cs).bind fun cs1 =>
    (matchWs1 cs1).bind fun cs2 =>
      (matchLit "task".data cs2).bind sepCapture

/-- Left-to-right scan collecting the captures of non-overlapping matches,
the semantics of re.findall for a pattern with one group.  Every match of
the rules above consumes at least one character, so fuel equal to the
input length never runs out before the scan finishes. -/
def findallAux (m : List Char → Option (List Char × List Char)) :
    Nat → List Char → List (List Char)
  | 0, _ => []
  | _ + 1, [] => []
  | n + 1, c :: cs =>
    match m (c :: cs) with
    | some (cap, rest) => cap :: findallAux m n rest
    | none => findallAux m n cs

/-- re.findall of one rule over a text. -/
def findall (m : List Char → Option (List Char × List Char)) (text : String) :
    List (List Char) :=
  findallAux m text.data.length text.data

/-- The fixed ordered rule table of _extract_tasks_from_text. -/
def matchers : List (List Char → Option (List Char × List Char)) :=
  [matchP1, matchP2, matchP3, matchP4]

/-- Python str.strip on a character list: drop ASCII whitespace from both
ends. -/
def pyStripL (l : List Char) : List Char :=
  ((l.dropWhile isPySpace).reverse.dropWhile isPySpace).reverse

/-- Python str.strip on a string. -/
def pyStrip (s : String) : String :=
  ⟨pyStripL s.data⟩

/-- TaskScanner._extract_tasks_from_text: run every rule over the text,
strip each capture, discard empty strips, and deduplicate by exact value
(the Python code returns list(set(tasks))). -/
def _extract_tasks_from_text (text : String) : List String :=
  (matchers.foldl
    (fun tasks m =>
      tasks ++ (((findall m text).map fun cap => pyStrip ⟨cap⟩).filter
        fun s => s ≠ ""))
    []).dedup

/-- TaskScanner._parse_text_description. -/
def _parse_text_description (text : String) : List String :=
  _extract_tasks_from_text text

/-- The scheme and network-location components produced by
urllib.parse.urlparse; only these two are read by TaskScanner._is_url. -/
structure UrlParts where
  scheme : String
  netloc : String
  deriving DecidableEq

/-- Characters allowed after the first character of a URL scheme. -/
def isSchemeChar (c : Char) : Bool :=
  c.isAlpha || c.isDigit || c == '+' || c == '-' || c == '.'

/-- ASCII lowercase, as applied by urlparse to the scheme. -/
def lowerAscii (c : Char) : Char :=
  if 65 ≤ c.toNat && c.toNat ≤ 90 then Char.ofNat (c.toNat + 32) else c

/-- Walk to the first colon; succeed with the characters before it when
they are all scheme characters, as the scheme-splitting loop of urlparse
does. -/
def splitSchemeAux : List Char → List Char → Option (List Char × List Char)
  | _, [] => none
  | acc, c :: cs =>
    if c == ':' then some (acc.reverse, cs)
    else if isSchemeChar c then splitSchemeAux (c :: acc) cs
    else none

/-- Scheme splitting of urlparse: the prefix before the first colon is the
scheme when it is non-empty, starts with a letter and consists of scheme
characters; it is lowercased and the colon consumed.  Otherwise the url is
left whole with an empty scheme. -/
def splitScheme (l : List Char) : List Char × List Char :=
  match splitSchemeAux [] l with
  | some (p :: pre, rest) =>
    if p.isAlpha then ((p :: pre).map lowerAscii, rest) else ([], l)
  | _ => ([], l)

/-- Stop characters ending the network-location component. -/
def isNetlocEnd (c : Char) : Bool :=
  c == '/' || c == '?' || c == '#'

/-- urllib.parse.urlparse restricted to the scheme and netloc components:
split off a scheme, then read a netloc exactly when the remainder starts
with two slashes, up to the next slash, question mark or hash. -/
def urlparse (s : String) : UrlParts :=
  let (scheme, rest) := splitScheme s.data
  match rest with
  | '/' :: '/' :: t => ⟨⟨scheme⟩, ⟨t.takeWhile fun c => !isNetlocEnd c⟩⟩
  | _ => ⟨⟨scheme⟩, ""⟩

/-- TaskScanner._is_url: true exactly when the parse has a non-empty
scheme and a non-empty netloc (Python truthiness of both strings). -/
def _is_url (s : String) : Bool :=
  (urlparse s).scheme ≠ "" && (urlparse s).netloc ≠ ""

/-- The outcome of reading one file, as seen by _analyze_file: the name
and suffix of the path, whether the path is a regular file, and what
Path.read_text would return (Except.error stands for a raised OSError or
UnicodeDecodeError). -/
structure FileEntry where
  name : String
  suffix : String
  is_file : Bool
  read_text : Except String String

/-- The file suffixes that the directory walk of _scan_filesystem admits. -/
def recognizedSuffixes : List String :=
  [".md", ".txt", ".doc", ".pdf"]

/-- TaskScanner._analyze_file: a pdf suffix yields the placeholder line
naming the file without reading it; any other suffix is read as utf-8 text
and scanned, and a raised read or decode error is caught, printed, and the
file contributes nothing. -/
def _analyze_file (f : FileEntry) : List String :=
  if f.suffix == ".pdf" then ["Review PDF documentation: " ++ f.name]
  else
    match f.read_text with
    | Except.ok content => _extract_tasks_from_text content
    | Except.error _ => []

/-- TaskScanner._scan_filesystem: a file path is analyzed directly; a
directory path is walked (rglob), analyzing exactly the regular files
whose suffix is recognized. -/
def _scan_filesystem (path_is_file : Bool) (self : FileEntry)
    (entries : List FileEntry) : List String :=
  if path_is_file then _analyze_file self
  else
    entries.foldl
      (fun tasks f =>
        if f.is_file && recognizedSuffixes.contains f.suffix then
          tasks ++ _analyze_file f
        else tasks)
      []

/-- An HTTP response as requests.get returns it: a status code and a body.
requests.get does not raise on a non-2xx status. -/
structure HttpResponse where
  status : Nat
  body : String
  deriving DecidableEq

/-- TaskScanner._scan_webpage: the whole fetch-parse-extract sequence runs
inside one try block.  A raised exception (connection error, parse error)
is caught and yields the empty list; a returned response - whatever its
status code - has its body put through BeautifulSoup get_text (the
get_text oracle) and the extractor. -/
def _scan_webpage (fetchResult : Except String HttpResponse)
    (get_text : String → String) : List String :=
  match fetchResult with
  | Except.error _ => []
  | Except.ok resp => _extract_tasks_from_text (get_text resp.body)

/-- TaskScanner.scan: an existing filesystem path is scanned as a path
first; otherwise a string classified as a URL is fetched; every remaining
string is treated as a literal text description.  The oracle arguments
carry the outside world: whether Path(target).exists() and is_file(), the
directory entries, the fetch outcome and the markup stripper. -/
def scan (path_exists : Bool) (path_is_file : Bool) (self : FileEntry)
    (entries : List FileEntry) (fetchResult : Except String HttpResponse)
    (get_text : String → String) (target : String) : List String :=
  if path_exists then _scan_filesystem path_is_file self entries
  else if _is_url target then _scan_webpage fetchResult get_text
  else _parse_text_description target

/-- Substring test used to state the spec examples: does the needle occur
contiguously in the haystack. -/
def hasSubstrL (needle : List Char) : List Char → Bool
  | [] => needle.isEmpty
  | c :: cs => needle.isPrefixOf (c :: cs) || hasSubstrL needle cs

/-- Substring test on strings. -/
def hasSubstr (needle hay : String) : Bool :=
  hasSubstrL needle.data hay.data

/-- The test input named by the spec. -/
def sampleText : String :=
  "Currently done manually: data entry process. Manual task: report generation."

/-- A throwaway path record for oracle slots that a run never reads. -/
def dfEntry : FileEntry :=
  ⟨"", "", false, Except.error ""⟩

theorem dropWhile_dropWhile (p : α → Bool) :
    ∀ l : List α, (l.dropWhile p).dropWhile p = l.dropWhile p
  | [] => rfl
  | a :: l => by
    by_cases h : p a
    · rw [List.dropWhile_cons_of_pos h]
      exact dropWhile_dropWhile p l
    · rw [List.dropWhile_cons_of_neg h, List.dropWhile_cons_of_neg h]

theorem dropWhile_of_reverse_dropWhile (p : α → Bool) (l : List α) :
    (((l.dropWhile p).reverse.dropWhile p).reverse).dropWhile p
      = ((l.dropWhile p).reverse.dropWhile p).reverse := by
  obtain ⟨t, ht⟩ := List.dropWhile_suffix (l := (l.dropWhile p).reverse) p
  cases hd : ((l.dropWhile p).reverse.dropWhile p).reverse with
  | nil => rfl
  | cons b bs =>
    have hback := congrArg List.reverse ht
    rw [List.reverse_append, List.reverse_reverse] at hback
    rw [hd] at hback
    have hhead : (l.dropWhile p).head? = some b := by
      rw [← hback]
      rfl
    have hpb : p b = false := by
      have h2 := List.head?_dropWhile_not p l
      rw [hhead] at h2
      exact h2
    rw [List.dropWhile_cons_of_neg (by rw [hpb]; exact Bool.false_ne_true)]

theorem pyStripL_idem (l : List Char) : pyStripL (pyStripL l) = pyStripL l := by
  have h1 : (pyStripL l).dropWhile isPySpace = pyStripL l :=
    dropWhile_of_reverse_dropWhile isPySpace l
  simp only [pyStripL] at h1 ⊢
  rw [h1, List.reverse_reverse, dropWhile_dropWhile]

theorem pyStrip_idem (s : String) : pyStrip (pyStrip s) = pyStrip s :=
  congrArg String.mk (pyStripL_idem s.data)

theorem mem_pyStripL {c : Char} {l : List Char} (h : c ∈ pyStripL l) : c ∈ l := by
  rw [pyStripL, List.mem_reverse] at h
  have h1 := List.dropWhile_subset (l := (l.dropWhile isPySpace).reverse) isPySpace h
  rw [List.mem_reverse] at h1
  exact List.dropWhile_subset isPySpace h1

theorem mem_foldl_append {α β : Type} (g : α → List β) :
    ∀ (L : List α) (init : List β) (x : β),
      (x ∈ L.foldl (fun acc m => acc ++ g m) init) ↔
        x ∈ init ∨ ∃ m, m ∈ L ∧ x ∈ g m := by
  intro L
  induction L with
  | nil => simp
  | cons a L ih =>
    intro init x
    rw [List.foldl_cons, ih]
    simp only [List.mem_append, List.mem_cons]
    constructor
    · rintro ((hx | hx) | ⟨m, hm, hx⟩)
      · exact Or.inl hx
      · exact Or.inr ⟨a, Or.inl rfl, hx⟩
      · exact Or.inr ⟨m, Or.inr hm, hx⟩
    · rintro (hx | ⟨m, (rfl | hm), hx⟩)
      · exact Or.inl (Or.inl hx)
      · exact Or.inl (Or.inr hx)
      · exact Or.inr ⟨m, hm, hx⟩

theorem captureFrom_eq_some {cs cap rest : List Char}
    (h : captureFrom cs = some (cap, rest)) :
    cap ≠ [] ∧ ∀ c ∈ cap, notDotNl c = true := by
  rw [captureFrom] at h
  split at h
  · exact absurd h (by simp)
  · rename_i hne
    injection h with h
    injection h with h1 h2
    subst h1
    refine ⟨fun hnil => ?_, fun c hc => List.mem_takeWhile_imp hc⟩
    rw [hnil] at hne
    exact hne rfl

theorem sepCapture_eq_some :
    ∀ {cs cap rest : List Char}, sepCapture cs = some (cap, rest) →
      cap ≠ [] ∧ ∀ c ∈ cap, notDotNl c = true := by
  intro cs
  induction cs with
  | nil => intro cap rest h; exact absurd h (by simp [sepCapture])
  | cons c cs ih =>
    intro cap rest h
    rw [sepCapture] at h
    split at h
    · cases hrec : sepCapture cs with
      | some r =>
        rw [hrec] at h
        injection h with h
        subst h
        exact ih hrec
      | none =>
        rw [hrec] at h
        exact captureFrom_eq_some h
    · exact captureFrom_eq_some h

theorem matchOptCI_eq_some {lit : List Char}
    {k : List Char → Option (List Char × List Char)}
    (hk : ∀ {cs cap rest}, k cs = some (cap, rest) →
      cap ≠ [] ∧ ∀ c ∈ cap, notDotNl c = true) :
    ∀ {cs cap rest}, matchOptCI lit k cs = some (cap, rest) →
      cap ≠ [] ∧ ∀ c ∈ cap, notDotNl c = true := by
  intro cs cap rest h
  rw [matchOptCI] at h
  cases hm : matchLit lit cs with
  | some r =>
    simp only [hm] at h
    cases hk2 : k r with
    | some r2 =>
      simp only [hk2] at h
      injection h with h
      subst h
      exact hk hk2
    | none =>
      simp only [hk2] at h
      exact hk h
  | none =>
    simp only [hm] at h
    exact hk h

theorem tailP1_eq_some {cs cap rest : List Char}
    (h : tailP1 cs = some (cap, rest)) :
    cap ≠ [] ∧ ∀ c ∈ cap, notDotNl c = true := by
  rw [tailP1, Option.bind_eq_some] at h
  obtain ⟨a, -, h⟩ := h
  rw [Option.bind_eq_some] at h
  obtain ⟨b, -, h⟩ := h
  exact sepCapture_eq_some h

theorem matchP1_eq_some {cs cap rest : List Char}
    (h : matchP1 cs = some (cap, rest)) :
    cap ≠ [] ∧ ∀ c ∈ cap, notDotNl c = true := by
  rw [matchP1, Option.bind_eq_some] at h
  obtain ⟨a, -, h⟩ := h
  exact matchOptCI_eq_some (fun hx => tailP1_eq_some hx) h

theorem matchP2_eq_some {cs cap rest : List Char}
    (h : matchP2 cs = some (cap, rest)) :
    cap ≠ [] ∧ ∀ c ∈ cap, notDotNl c = true := by
  rw [matchP2, Option.bind_eq_some] at h
  obtain ⟨a, -, h⟩ := h
  rw [Option.bind_eq_some] at h
  obtain ⟨b, -, h⟩ := h
  rw [Option.bind_eq_some] at h
  obtain ⟨c, -, h⟩ := h
  rw [Option.bind_eq_some] at h
  obtain ⟨d, -, h⟩ := h
  rw [Option.bind_eq_some] at h
  obtain ⟨e, -, h⟩ := h
  exact matchOptCI_eq_some (fun hx => sepCapture_eq_some hx) h

theorem matchP3_eq_some {cs cap rest : List Char}
    (h : matchP3 cs = some (cap, rest)) :
    cap ≠ [] ∧ ∀ c ∈ cap, notDotNl c = true := by
  rw [matchP3, Option.bind_eq_some] at h
  obtain ⟨a, -, h⟩ := h
  rw [Option.bind_eq_some] at h
  obtain ⟨b, -, h⟩ := h
  rw [Option.bind_eq_some] at h
  obtain ⟨c, -, h⟩ := h
  exact sepCapture_eq_some h

theorem matchP4_eq_some {cs cap rest : List Char}
    (h : matchP4 cs = some (cap, rest)) :
    cap ≠ [] ∧ ∀ c ∈ cap, notDotNl c = true := by
  rw [matchP4, Option.bind_eq_some] at h
  obtain ⟨a, -, h⟩ := h
  rw [Option.bind_eq_some] at h
  obtain ⟨b, -, h⟩ := h
  rw [Option.bind_eq_some] at h
  obtain ⟨c, -, h⟩ := h
  exact sepCapture_eq_some h

theorem matchers_eq_some {m : List Char → Option (List Char × List Char)}
    (hm : m ∈ matchers) {cs cap rest : List Char}
    (h : m cs = some (cap, rest)) :
    cap ≠ [] ∧ ∀ c ∈ cap, notDotNl c = true := by
  rw [matchers] at hm
  simp only [List.mem_cons, List.not_mem_nil, or_false] at hm
  rcases hm with rfl | rfl | rfl | rfl
  · exact matchP1_eq_some h
  · exact matchP2_eq_some h
  · exact matchP3_eq_some h
  · exact matchP4_eq_some h

theorem findallAux_mem {m : List Char → Option (List Char × List Char)}
    (hm : ∀ {cs cap rest}, m cs = some (cap, rest) →
      cap ≠ [] ∧ ∀ c ∈ cap, notDotNl c = true) :
    ∀ (fuel : Nat) (cs : List Char), ∀ x ∈ findallAux m fuel cs,
      x ≠ [] ∧ ∀ c ∈ x, notDotNl c = true := by
  intro fuel
  induction fuel with
  | zero => intro cs x hx; exact absurd hx (by simp [findallAux])
  | succ n ih =>
    intro cs x hx
    cases cs with
    | nil => exact absurd hx (by simp [findallAux])
    | cons c cs =>
      rw [findallAux] at hx
      cases hmc : m (c :: cs) with
      | some r =>
        rw [hmc] at hx
        rw [List.mem_cons] at hx
        rcases hx with rfl | hx
        · exact hm hmc
        · exact ih r.2 x hx
      | none =>
        rw [hmc] at hx
        exact ih cs x hx

theorem findall_mem {m : List Char → Option (List Char × List Char)}
    (hm : m ∈ matchers) {text : String} {x : List Char}
    (hx : x ∈ findall m text) :
    x ≠ [] ∧ ∀ c ∈ x, notDotNl c = true :=
  findallAux_mem (fun h => matchers_eq_some hm h) text.data.length text.data x hx

theorem mem_extract {text : String} {t : String} :
    t ∈ _extract_tasks_from_text text ↔
      ∃ m, m ∈ matchers ∧ ∃ cap ∈ findall m text, pyStrip ⟨cap⟩ = t ∧ t ≠ "" := by
  rw [_extract_tasks_from_text, List.mem_dedup, mem_foldl_append]
  simp only [List.not_mem_nil, false_or, List.mem_filter, List.mem_map,
    decide_eq_true_eq]
  constructor
  · rintro ⟨m, hm, ⟨⟨cap, hcap, rfl⟩, hne⟩⟩
    exact ⟨m, hm, cap, hcap, rfl, hne⟩
  · rintro ⟨m, hm, cap, hcap, rfl, hne⟩
    exact ⟨m, hm, ⟨⟨cap, hcap, rfl⟩, hne⟩⟩

/-- Claim C1: every element of the extractor result is a non-empty string
equal to its own whitespace-trimmed form, and the result holds no two
equal elements (deduplication by exact value). -/
theorem extract_trimmed_nonempty_nodup (text : String) :
    (∀ t ∈ _extract_tasks_from_text text, t ≠ "" ∧ pyStrip t = t) ∧
      (_extract_tasks_from_text text).Nodup := by
  constructor
  · intro t ht
    rw [mem_extract] at ht
    obtain ⟨m, -, cap, -, rfl, hne⟩ := ht
    exact ⟨hne, pyStrip_idem ⟨cap⟩⟩
  · exact List.nodup_dedup _

/-- Witness for claim C1 at the sample input of the spec. -/
theorem extract_trimmed_nonempty_nodup_witness :
    ("report generation" ≠ "" ∧ pyStrip "report generation" = "report generation") ∧
      (_extract_tasks_from_text sampleText).Nodup :=
  ⟨(extract_trimmed_nonempty_nodup sampleText).1 "report generation" (by decide),
    (extract_trimmed_nonempty_nodup sampleText).2⟩

/-- Claim C2: on the sample input of the spec, the extractor returns at
least one entry containing the substring data entry and at least one
containing report generation. -/
theorem extract_sample_has_both :
    (∃ t ∈ _extract_tasks_from_text sampleText, hasSubstr "data entry" t = true) ∧
      ∃ t ∈ _extract_tasks_from_text sampleText, hasSubstr "report generation" t = true := by
  decide

/-- Claim C3 counterexample: a fetch that returns an HTTP response with
the non-2xx status 404 is not treated as a failure: scan extracts tasks
from its body, so the result is not the empty sequence the claim
promises. -/
theorem scan_404_body_scanned :
    (404 / 100 = 2 → False) ∧
      scan false false dfEntry [] (Except.ok ⟨404, "Manual task: retry the request"⟩)
          id "http://example.com/missing" = ["retry the request"] ∧
      ["retry the request"] ≠ ([] : List String) := by
  refine ⟨by decide, ?_, by decide⟩
  decide

/-- Claim C3 amended: a fetch that raises (connection failure, parse
failure) makes scan yield zero results without propagating the exception;
a response that is returned is processed whatever its status: its body
goes through get_text and the extractor. -/
theorem scan_webpage_error_handling :
    (∀ (e : String) (get_text : String → String) (target : String),
        _is_url target = true →
          scan false false dfEntry [] (Except.error e) get_text target = []) ∧
      ∀ (resp : HttpResponse) (get_text : String → String),
        _scan_webpage (Except.ok resp) get_text =
          _extract_tasks_from_text (get_text resp.body) := by
  constructor
  · intro e get_text target hurl
    rw [scan]
    simp [hurl, _scan_webpage]
  · intro resp get_text
    rfl

/-- Witness for the amended claim C3 at a concrete connection error. -/
theorem scan_webpage_error_handling_witness :
    scan false false dfEntry [] (Except.error "connection refused") id
        "https://example.com" = [] :=
  scan_webpage_error_handling.1 "connection refused" id "https://example.com" (by decide)

/-- Claim C4 counterexample: a .doc file met during a directory scan (a
binary format the code cannot parse) is never represented by a
placeholder: when decoding raises the file contributes nothing, and when
its bytes happen to decode they are parsed as text and scanned. -/
theorem doc_file_not_placeholder :
    _scan_filesystem false dfEntry
        [⟨"legacy.doc", ".doc", true, Except.error "UnicodeDecodeError"⟩] = [] ∧
      _scan_filesystem false dfEntry
        [⟨"notes.doc", ".doc", true, Except.ok "Manual task: fill in the form"⟩] =
        ["fill in the form"] := by
  constructor
  · decide
  · decide

/-- Claim C4 amended: exactly the files with suffix .pdf are represented
by a placeholder naming the file, with their bytes never read; every
other file has its bytes read as utf-8 text and scanned, and a raised
read or decode error makes the file contribute nothing. -/
theorem analyze_file_placeholder_exactly_pdf :
    (∀ (n : String) (b : Bool) (r : Except String String),
        _analyze_file ⟨n, ".pdf", b, r⟩ = ["Review PDF documentation: " ++ n]) ∧
      (∀ (n suf : String) (b : Bool) (content : String), suf ≠ ".pdf" →
        _analyze_file ⟨n, suf, b, Except.ok content⟩ =
          _extract_tasks_from_text content) ∧
      ∀ (n suf : String) (b : Bool) (e : String), suf ≠ ".pdf" →
        _analyze_file ⟨n, suf, b, Except.error e⟩ = [] := by
  refine ⟨fun n b r => rfl, fun n suf b content hs => ?_, fun n suf b e hs => ?_⟩
  · simp [_analyze_file, hs]
  · simp [_analyze_file, hs]

/-- Witness for the amended claim C4 at concrete pdf and doc files. -/
theorem analyze_file_placeholder_exactly_pdf_witness :
    _analyze_file ⟨"spec.pdf", ".pdf", true, Except.error "binary"⟩ =
        ["Review PDF documentation: spec.pdf"] ∧
      _analyze_file ⟨"notes.doc", ".doc", true, Except.ok "Manual task: ship it"⟩ =
        _extract_tasks_from_text "Manual task: ship it" ∧
      _analyze_file ⟨"legacy.doc", ".doc", true, Except.error "boom"⟩ = [] :=
  ⟨analyze_file_placeholder_exactly_pdf.1 "spec.pdf" true (Except.error "binary"),
    analyze_file_placeholder_exactly_pdf.2.1 "notes.doc" ".doc" true
      "Manual task: ship it" (by decide),
    analyze_file_placeholder_exactly_pdf.2.2 "legacy.doc" ".doc" true "boom"
      (by decide)⟩

/-- Claim C5: URL classification is true exactly when the parse yields
both a scheme and a host component, and it decides the four examples of
the spec as required. -/
theorem is_url_iff_scheme_netloc :
    (∀ s : String, _is_url s = true ↔
        (urlparse s).scheme ≠ "" ∧ (urlparse s).netloc ≠ "") ∧
      _is_url "not a url" = false ∧ _is_url "file.txt" = false ∧
      _is_url "https://example.com" = true ∧
      _is_url "http://localhost:3000" = true := by
  refine ⟨fun s => ?_, by decide, by decide, by decide, by decide⟩
  rw [_is_url]
  simp

/-- Witness for claim C5, applying the classification criterion at a
concrete URL. -/
theorem is_url_iff_scheme_netloc_witness :
    (urlparse "https://example.com").scheme ≠ "" ∧
      (urlparse "https://example.com").netloc ≠ "" :=
  (is_url_iff_scheme_netloc.1 "https://example.com").mp (by decide)

/-- Claim C6: scan dispatches with fixed precedence: an existing path is
scanned as a filesystem path even when the target is also a URL; a
non-path URL is fetched; everything else, malformed URLs included, is
treated as one literal text description, ignoring the filesystem and
network oracles entirely. -/
theorem scan_precedence (path_exists path_is_file : Bool) (self : FileEntry)
    (entries : List FileEntry) (fetchResult : Except String HttpResponse)
    (get_text : String → String) (target : String) :
    (path_exists = true →
        scan path_exists path_is_file self entries fetchResult get_text target =
          _scan_filesystem path_is_file self entries) ∧
      (path_exists = false → _is_url target = true →
        scan path_exists path_is_file self entries fetchResult get_text target =
          _scan_webpage fetchResult get_text) ∧
      (path_exists = false → _is_url target = false →
        scan path_exists path_is_file self entries fetchResult get_text target =
          _parse_text_description target) := by
  refine ⟨fun hp => ?_, fun hp hu => ?_, fun hp hu => ?_⟩
  · rw [scan, if_pos hp]
  · rw [scan, hp]
    simp [hu]
  · rw [scan, hp]
    simp [hu]

/-- Witness for claim C6: path precedence over a well-formed URL target,
URL dispatch, and raw-text fallback for a malformed URL, at concrete
inputs. -/
theorem scan_precedence_witness :
    scan true false dfEntry [] (Except.error "down") id "https://example.com" =
        _scan_filesystem false dfEntry [] ∧
      scan false false dfEntry [] (Except.error "down") id "https://example.com" =
        _scan_webpage (Except.error "down") id ∧
      scan false false dfEntry [] (Except.error "down") id "http//missing-colon" =
        _parse_text_description "http//missing-colon" :=
  ⟨(scan_precedence true false dfEntry [] (Except.error "down") id
      "https://example.com").1 rfl,
    (scan_precedence false false dfEntry [] (Except.error "down") id
      "https://example.com").2.1 rfl (by decide),
    (scan_precedence false false dfEntry [] (Except.error "down") id
      "http//missing-colon").2.2 rfl (by decide)⟩

/-- Claim C7: a text on which no rule matches anywhere extracts nothing. -/
theorem extract_empty_of_no_match (text : String)
    (h : ∀ m ∈ matchers, findall m text = []) :
    _extract_tasks_from_text text = [] := by
  have h1 := h matchP1 (by rw [matchers]; exact List.mem_cons_self _ _)
  have h2 := h matchP2 (by rw [matchers]; simp)
  have h3 := h matchP3 (by rw [matchers]; simp)
  have h4 := h matchP4 (by rw [matchers]; simp)
  rw [_extract_tasks_from_text, matchers]
  simp [h1, h2, h3, h4]

/-- Witness for claim C7 at a concrete cue-free text. -/
theorem extract_empty_of_no_match_witness :
    _extract_tasks_from_text "hello world, nothing to see here" = [] :=
  extract_empty_of_no_match "hello world, nothing to see here" (by decide)

/-- Claim C8: the directory walk analyzes exactly the regular files whose
suffix is recognized, and a directory with no such file yields the empty
result. -/
theorem scan_filesystem_recognized_only (self : FileEntry)
    (entries : List FileEntry) :
    _scan_filesystem false self entries =
        (entries.filter fun f =>
            f.is_file && recognizedSuffixes.contains f.suffix).foldl
          (fun tasks f => tasks ++ _analyze_file f) [] ∧
      ((entries.filter fun f =>
          f.is_file && recognizedSuffixes.contains f.suffix) = [] →
        _scan_filesystem false self entries = []) := by
  have key : ∀ (l : List FileEntry) (init : List String),
      l.foldl
          (fun tasks f =>
            if f.is_file && recognizedSuffixes.contains f.suffix then
              tasks ++ _analyze_file f
            else tasks) init =
        (l.filter fun f => f.is_file && recognizedSuffixes.contains f.suffix).foldl
          (fun tasks f => tasks ++ _analyze_file f) init := by
    intro l
    induction l with
    | nil => intro init; rfl
    | cons a l ih =>
      intro init
      by_cases h : (a.is_file && recognizedSuffixes.contains a.suffix) = true
      · rw [List.foldl_cons, if_pos h, ih, List.filter_cons, if_pos h,
          List.foldl_cons]
      · rw [List.foldl_cons, if_neg h, ih, List.filter_cons, if_neg h]
  constructor
  · rw [_scan_filesystem]
    simp only [Bool.false_eq_true, if_false]
    exact key entries []
  · intro hf
    rw [_scan_filesystem]
    simp only [Bool.false_eq_true, if_false]
    rw [key entries [], hf]
    rfl

/-- Witness for claim C8: a directory holding only an unrecognized .py
file, whose content would otherwise match a rule, yields nothing because
the file is never read. -/
theorem scan_filesystem_recognized_only_witness :
    _scan_filesystem false dfEntry
        [⟨"job.py", ".py", true, Except.ok "Manual task: port me"⟩] = [] :=
  (scan_filesystem_recognized_only dfEntry
      [⟨"job.py", ".py", true, Except.ok "Manual task: port me"⟩]).2 (by rfl)

/-- Claim C9: the extractor is a pure function of its input text: equal
inputs always yield equal result lists. -/
theorem extract_deterministic (t₁ t₂ : String) (h : t₁ = t₂) :
    _extract_tasks_from_text t₁ = _extract_tasks_from_text t₂ :=
  congrArg _extract_tasks_from_text h

/-- Witness for claim C9 at a concrete repeated input. -/
theorem extract_deterministic_witness :
    _extract_tasks_from_text "Manual task: do stuff" =
      _extract_tasks_from_text "Manual task: do stuff" :=
  extract_deterministic "Manual task: do stuff" "Manual task: do stuff" rfl

/-- Claim C10: no extracted entry contains a period or a line feed: every
capture stops at the first sentence boundary or line break. -/
theorem extract_no_period_no_newline (text : String) :
    ∀ t ∈ _extract_tasks_from_text text, ∀ c ∈ t.data, c ≠ '.' ∧ c ≠ '\n' := by
  intro t ht c hc
  rw [mem_extract] at ht
  obtain ⟨m, hm, cap, hcap, rfl, -⟩ := ht
  have hprop := (findall_mem hm hcap).2 c (mem_pyStripL hc)
  rw [notDotNl] at hprop
  simp only [Bool.not_eq_eq_eq_not, Bool.not_true, Bool.or_eq_false_iff,
    beq_eq_false_iff_ne] at hprop
  exact hprop

/-- Witness for claim C10 at a concrete extracted entry and character. -/
theorem extract_no_period_no_newline_witness : 'd' ≠ '.' ∧ 'd' ≠ '\n' :=
  extract_no_period_no_newline "Manual task: do stuff" "do stuff" (by decide)
    'd' (by decide)
/-- Regression suite for the matcher embedding: each equation reproduces
the output observed from the CPython re module on the same pattern and
input, covering greedy backtracking of the optional literal, backtracking
out of the separator run into the capture, separator runs spanning line
feeds, alternation on shared prefixes, and case-insensitive matching. -/
theorem matcher_regressions :
    _extract_tasks_from_text "Manual task: do stuff now" = ["do stuff now"] ∧
      _extract_tasks_from_text "currently done manually" = ["ly"] ∧
      findall matchP1 "manual task: ." = [[' ']] ∧
      findall matchP1 "Manual task:\nnext line" = ["next line".data] ∧
      findall matchP1 "manual processed: stuff here" = ["ed: stuff here".data] ∧
      findall matchP1 "manual procedure  check the dials" =
        ["check the dials".data] ∧
      findall matchP3 "human input\t:  press the button. human action" =
        ["press the button".data] ∧
      findall matchP4 "repetitive task repetitive task: fold laundry" =
        ["repetitive task: fold laundry".data] ∧
      _extract_tasks_from_text
          "CURRENTLY PERFORMED MANUAL: audit Logs; ok. MANUAL STEP:go" =
        ["go", "audit Logs; ok"] ∧
      findall matchP1 "manual task" = [] ∧
      findall matchP1 "manualy task: x" = [] := by
  decide

/-- Regression suite for the urlparse embedding: each equation reproduces
the scheme and netloc computed by urllib.parse.urlparse on the same
input. -/
theorem urlparse_regressions :
    urlparse "ht+tp://x.y/z?q#f" = ⟨"ht+tp", "x.y"⟩ ∧
      urlparse "HTTP://Example.com/path" = ⟨"http", "Example.com"⟩ ∧
      urlparse "mailto:joe@x.com" = ⟨"mailto", ""⟩ ∧
      urlparse "//host/path" = ⟨"", "host"⟩ ∧
      urlparse "1http://a" = ⟨"", ""⟩ ∧
      urlparse "http:/oneslash" = ⟨"http", ""⟩ := by
  decide

end TaskScanner
